import Mathlib

/-!
Verification development for the C-Script reference compiler
(`cscriptc.cpp` / `alternate_cscriptc.cpp`).

Shallow embedding conventions:
* C++ `std::string` text is embedded as `List Char` (called `Str` below);
  index-based scanning loops become structurally recursive functions, with
  an explicit fuel argument (always instantiated with `length + 1`, which
  bounds the number of loop iterations because every iteration of the C++
  loops advances the scan position by at least one character).
* `std::map` / `std::set` become association lists / lists, queried by
  membership only, exactly as the C++ queries them.
* C++ `double` values in the learner are embedded as exact rationals `ℚ`
  where only field arithmetic occurs (`learn_update`), and as reals `ℝ`
  where `sqrt`/`log` occur (`score_ucb`).
* Functions that `throw`/`exit` on error return `Option Error` instead
  (`none` = normal termination, `some e` = the fatal diagnostic `e`);
  error payloads keep the data the C++ formats into its message
  (enum type name, list of missing members, line, column).
-/

/-- Text, embedded as a list of characters (C++ `std::string`). -/
abbrev Str := List Char

/-- C `isspace` in the default locale: space, tab, newline, vertical tab,
form feed, carriage return. -/
def csIsSpace (c : Char) : Bool :=
  c == ' ' || c == '\t' || c == '\n' || c == '\r' || c == '\x0b' || c == '\x0c'

/-- C `isalnum(c) || c == '_'`, the character class the checker uses to read
a type name after `CS_SWITCH_EXHAUSTIVE(`. -/
def csIsAlnumU (c : Char) : Bool :=
  ('A' ≤ c && c ≤ 'Z') || ('a' ≤ c && c ≤ 'z') || ('0' ≤ c && c ≤ '9') || c == '_'

/-- First character of the regex class `[A-Za-z_]` (identifier start). -/
def csIsIdentStart (c : Char) : Bool :=
  ('A' ≤ c && c ≤ 'Z') || ('a' ≤ c && c ≤ 'z') || c == '_'

/-- The regex class `\w` = `[A-Za-z0-9_]`. -/
def csIsWordChar (c : Char) : Bool :=
  csIsIdentStart c || ('0' ≤ c && c ≤ '9')

/-- Helper of `findSub`: first index `≥ k` at which `pat` occurs in the
remaining text. -/
def findSubIdx : Str → Str → Nat → Option Nat
  | [], pat, k => if pat.isEmpty then some k else none
  | c :: rest, pat, k =>
    if pat.isPrefixOf (c :: rest) then some k else findSubIdx rest pat (k + 1)

/-- `std::string::find(pat)` on a suffix: index of the first occurrence of
`pat` in `s`, if any. -/
def findSub (s pat : Str) : Option Nat := findSubIdx s pat 0

/-- `line_col_at` from the source: 1-based line and column of byte `pos`. -/
def lineColAt (s : Str) (pos : Nat) : Nat × Nat :=
  (s.take pos).foldl
    (fun lc ch => if ch == '\n' then (lc.1 + 1, 1) else (lc.1, lc.2 + 1)) (1, 1)

/-- Value of a string of decimal digit characters (used for the profile
count fields read by `operator>>`). -/
def natOfDigits (ds : Str) : Nat :=
  ds.foldl (fun a c => 10 * a + (c.toNat - 48)) 0

/-! ### Enum registry and switch-exhaustiveness checker

Embedding of `struct EnumInfo` and `check_exhaustiveness_or_die` from
`alternate_cscriptc.cpp` (lines 427-581).  The `cscriptc.cpp` variant
(lines 292-413) is the special case in which every registered enum has
`is_flags = false` (its `EnumInfo` has no flags field) and the fatal
diagnostic is printed and `exit(1)`-ed instead of thrown. -/

/-- `struct EnumInfo { set<string> members; bool is_flags; }`. -/
structure EnumInfo where
  members : List Str
  is_flags : Bool
deriving DecidableEq

/-- The fatal diagnostics `check_exhaustiveness_or_die` can raise, with the
data the C++ formats into the message text: the enum type name, the missing
member list (for the non-exhaustiveness error), and the site's line/column
from `line_col_at`. -/
inductive ExhaustError where
  | unmatched (type : Str) (line col : Nat)
  | nonExhaustive (type : Str) (missing : List Str) (line col : Nat)
deriving DecidableEq

/-- The literal `"CS_SWITCH_EXHAUSTIVE("` searched for by the checker. -/
def openPat : Str := ("CS_SWITCH_EXHAUSTIVE(").data

/-- The literal `"CS_SWITCH_END("`; the close marker is this followed by
the type name. -/
def endPat : Str := ("CS_SWITCH_END(").data

/-- The literal `"CS_CASE"` beginning the per-case marker regex. -/
def casePat : Str := ("CS_CASE").data

/-- `src.find("CS_SWITCH_EXHAUSTIVE(", i)` : absolute position of the next
switch-site open marker at or after `i`. -/
def sitePos (s : Str) (i : Nat) : Option Nat :=
  (findSub (s.drop i) openPat).map (fun d => i + d)

/-- Position after the open marker and the spaces following it: the `p`
of the C++ scanner (`tstart` advanced over `isspace` characters). -/
def typeStart (s : Str) (a : Nat) : Nat :=
  let tstart := a + openPat.length
  tstart + ((s.drop tstart).takeWhile csIsSpace).length

/-- The type name read at site `a`: the maximal run of `isalnum || '_'`
characters starting at `typeStart` (the `Type` of the C++ scanner). -/
def typeAt (s : Str) (a : Nat) : Str :=
  (s.drop (typeStart s a)).takeWhile csIsAlnumU

/-- `src.find(endKey, q)` with `endKey = "CS_SWITCH_END(" ++ Type`:
absolute position of the type-keyed close marker at or after `q`. -/
def endPos (s : Str) (T : Str) (q : Nat) : Option Nat :=
  (findSub (s.drop q) (endPat ++ T)).map (fun d => q + d)

/-- After the literal `CS_CASE`, match the regex tail `\s*\(\s*([A-Za-z_]\w*)\s*\)`:
returns the captured identifier and the text after the closing parenthesis,
or `none` if the tail does not match here.  (The regex engine cannot match
with a shorter identifier than the maximal munch: after a maximal `\w*` run
the next character is neither a word character, so shortening the capture
puts a word character where `\s*\)` must match, which fails.) -/
def matchCaseTail (t : Str) : Option (Str × Str) :=
  match t.dropWhile csIsSpace with
  | '(' :: t2 =>
    match t2.dropWhile csIsSpace with
    | c :: t4 =>
      if csIsIdentStart c then
        let ident := c :: t4.takeWhile csIsWordChar
        match (t4.dropWhile csIsWordChar).dropWhile csIsSpace with
        | ')' :: t7 => some (ident, t7)
        | _ => none
      else none
    | [] => none
  | _ => none

/-- The `while (search_from(region, pos2, m, caseRe)) seen.insert(...)` loop:
collect every identifier matched by `CS_CASE\s*\(\s*([A-Za-z_]\w*)\s*\)` in
`region`, scanning left to right (a failed literal occurrence resumes one
character later, a successful match resumes at its suffix, exactly as
`std::regex_search` iterated via `search_from`). -/
def collectCases : Nat → Str → List Str → List Str
  | 0, _, acc => acc
  | fuel + 1, region, acc =>
    match findSub region casePat with
    | none => acc
    | some k =>
      match matchCaseTail (region.drop (k + casePat.length)) with
      | some (ident, rest) => collectCases fuel rest (acc ++ [ident])
      | none => collectCases fuel (region.drop (k + 1)) acc

/-- The covered-case identifiers of the site region `substr(a, b-a)`. -/
def casesIn (region : Str) : List Str :=
  collectCases (region.length + 1) region []

/-- `missing`: the registered members not covered by the site, in member
order (the C++ `for (e : universe) if (!seen.count(e)) missing.push_back(e)`). -/
def missingOf (info : EnumInfo) (seen : List Str) : List Str :=
  info.members.filter (fun m => !(seen.contains m))

/-- The per-site comparison block of `check_exhaustiveness_or_die`
(`alternate_cscriptc.cpp` lines 559-578): look the type up in the registry;
unregistered types and `Flags` enums are skipped silently; a `Standard`
enum with a non-empty `missing` list raises the non-exhaustiveness error
carrying every missing member and the site's line/column. -/
def processSite (enums : List (Str × EnumInfo)) (T : Str) (seen : List Str)
    (lc : Nat × Nat) : Option ExhaustError :=
  match List.lookup T enums with
  | none => none
  | some info =>
    if info.is_flags then none
    else
      let missing := missingOf info seen
      if missing.isEmpty then none
      else some (.nonExhaustive T missing lc.1 lc.2)

/-- The scanning loop of `check_exhaustiveness_or_die`.  `fuel` bounds the
number of iterations (the C++ loop advances `i` past `b > a ≥ i` each
iteration, so `length + 1` iterations always suffice). -/
def checkLoop (s : Str) (enums : List (Str × EnumInfo)) : Nat → Nat → Option ExhaustError
  | 0, _ => none
  | fuel + 1, i =>
    match sitePos s i with
    | none => none
    | some a =>
      let T := typeAt s a
      if T.isEmpty then checkLoop s enums fuel (a + 1)
      else
        match endPos s T (typeStart s a + T.length) with
        | none => some (.unmatched T (lineColAt s a).1 (lineColAt s a).2)
        | some b =>
          match processSite enums T (casesIn ((s.drop a).take (b - a))) (lineColAt s a) with
          | some e => some e
          | none => checkLoop s enums fuel (b + 1)

/-- `check_exhaustiveness_or_die(src, enums)`: `none` = no fatal
diagnostic, `some e` = the first fatal diagnostic raised. -/
def check_exhaustiveness_or_die (s : Str) (enums : List (Str × EnumInfo)) :
    Option ExhaustError :=
  checkLoop s enums (s.length + 1) 0

/-! ### `@unsafe` block lowering

Embedding of `lower_unsafe_blocks` (`cscriptc.cpp` lines 416-439,
identical in `alternate_cscriptc.cpp` lines 584-607). -/

/-- The literal `"@unsafe"` that triggers the rewrite. -/
def atUnsafePat : Str := ("@unsafe").data

/-- The text emitted in place of the block-opening brace. -/
def beginMarker : Str := ("\x7b CS_UNSAFE_BEGIN; ").data

/-- The text emitted just before the depth-zero closing brace. -/
def endMarker : Str := (" CS_UNSAFE_END; ").data

/-- The inner `while (k < n && depth > 0)` loop of `lower_unsafe_blocks`,
entered with `depth = 1` just after the opening brace: copies characters
verbatim, tracking brace depth; at the closing brace that returns the depth
to zero it emits ` CS_UNSAFE_END; ` before that brace and stops, returning
the emitted text and the unconsumed remainder.  If the input ends first
(unbalanced block) everything was copied and no end marker is emitted,
exactly as in the C++. -/
def scanBlock : Nat → Str → (Str × Str)
  | _, [] => ([], [])
  | depth, c :: rest =>
    if c = '{' then
      let p := scanBlock (depth + 1) rest
      (c :: p.1, p.2)
    else if c = '}' then
      if depth = 1 then (endMarker ++ [c], rest)
      else
        let p := scanBlock (depth - 1) rest
        (c :: p.1, p.2)
    else
      let p := scanBlock depth rest
      (c :: p.1, p.2)

/-- The outer character loop of `lower_unsafe_blocks`: on `@unsafe`
followed by optional whitespace and `{`, emit `{ CS_UNSAFE_BEGIN; ` and
hand the block body to `scanBlock`; otherwise copy one character.  `fuel`
bounds the iterations (each consumes at least one input character). -/
def lowerUnsafeLoop : Nat → Str → Str
  | 0, _ => []
  | _ + 1, [] => []
  | fuel + 1, c :: rest =>
    if (c :: rest).take 7 = atUnsafePat then
      match ((c :: rest).drop 7).dropWhile csIsSpace with
      | '{' :: body =>
        beginMarker ++ (scanBlock 1 body).1 ++ lowerUnsafeLoop fuel (scanBlock 1 body).2
      | _ => c :: lowerUnsafeLoop fuel rest
    else c :: lowerUnsafeLoop fuel rest

/-- `lower_unsafe_blocks(in)`. -/
def lower_unsafe_blocks (s : Str) : Str :=
  lowerUnsafeLoop (s.length + 1) s

/-- Brace-balance of a block body: no prefix closes more braces than it
opens, and the whole body opens exactly as many as it closes (so the first
depth-zero closing brace after the body's opening brace is the one that
follows the body). -/
@[reducible] def BalancedBraces (b : Str) : Prop :=
  (∀ n ≤ b.length, ((b.take n).count '}') ≤ ((b.take n).count '{')) ∧
    b.count '{' = b.count '}'

/-! ### Profile collection and hot-set selection

Embedding of `read_profile_counts` and `select_hot_functions`
(`cscriptc.cpp` lines 785-800).  `read_profile_counts` runs
`while (f >> name >> cnt) m[name] += cnt;` over the counts file: `>>` on a
string skips whitespace and reads a maximal non-whitespace token; `>>` on
an `unsigned long long` skips whitespace and extracts per `strtoull` with
base 10: an optional single sign character, then a maximal digit run.  The
extraction fails — the stream enters the fail state and the loop body does
not run, ending parsing — when the digit run is empty or when its value
exceeds `ULLONG_MAX = 2^64 - 1`; a minus sign negates the in-range value
modulo `2^64` without failing.  The stream stops at the first non-digit
character, which the next `>> name` then consumes. -/

/-- The optional sign character `strtoull` accepts before the digit run:
returns whether the value is to be negated (modulo `2^64`) and the rest of
the input. -/
def readSign : Str → Bool × Str
  | '-' :: rest => (true, rest)
  | '+' :: rest => (false, rest)
  | u => (false, u)

/-- The extraction loop of `read_profile_counts`, producing the raw
`(name, count)` pairs in file order; parsing stops at end of input or at
the first failed numeric extraction (no digits after the optional sign, or
a digit run whose value is out of the `unsigned long long` range). -/
def readCountsF : Nat → Str → List (Str × Nat)
  | 0, _ => []
  | fuel + 1, s =>
    let t := s.dropWhile csIsSpace
    let nm := t.takeWhile (fun c => !(csIsSpace c))
    if nm.isEmpty then []
    else
      let r := t.dropWhile (fun c => !(csIsSpace c))
      let u := r.dropWhile csIsSpace
      let sgn := readSign u
      let ds := sgn.2.takeWhile Char.isDigit
      if ds.isEmpty then []
      else if 2 ^ 64 - 1 < natOfDigits ds then []
      else
        (nm, if sgn.1 then (2 ^ 64 - natOfDigits ds) % 2 ^ 64 else natOfDigits ds) ::
          readCountsF fuel (sgn.2.drop ds.length)

/-- `read_profile_counts` on the file content (the map is recovered from
the pair list by `countOf`, which performs the `m[name] += cnt`
accumulation). -/
def read_profile_counts (s : Str) : List (Str × Nat) :=
  readCountsF (s.length + 1) s

/-- The aggregated count of a symbol: the sum of the counts of every pair
read for it (`m[name] += cnt` with `operator[]` defaulting to `0`). -/
def countOf (pairs : List (Str × Nat)) (sym : Str) : Nat :=
  ((pairs.filter (fun p => p.1 == sym)).map (fun p => p.2)).sum

/-- The post-sort selection loop of `select_hot_functions` (lines 795-799):
from the count-sorted vector, keep the first `topN` entries whose count is
positive and return their symbols.  The vector it runs on is produced by
`std::sort` with comparator `a.second > b.second`; the C++ standard only
guarantees the result is some permutation of the input that is weakly
decreasing in the count (`SortedByCountDesc` below) — the relative order of
equal counts is unspecified. -/
def select_hot_functions (v : List (Str × Nat)) (topN : Nat) : List Str :=
  ((v.take topN).filter (fun p => 0 < p.2)).map (fun p => p.1)

/-- The postcondition `std::sort(v, cmp)` guarantees for
`cmp = (a.second > b.second)`: adjacent counts are weakly decreasing. -/
@[reducible] def SortedByCountDesc (v : List (Str × Nat)) : Prop :=
  v.Chain' (fun a b => b.2 ≤ a.2)

/-! ### PGO driver control flow

Embedding of the PGO orchestration in `main` (`cscriptc.cpp` lines
865-895 and 914-917).  External toolchain outcomes (exit codes of the
instrumented build, the instrumented run and the final build) and the
content of the flushed counts file (empty when the file is missing) are
inputs; the result records the driver's exit code (`3` = instrumented
build failed, `4` = final build failed, `0` = success), whether the
non-zero-run warning was printed, whether the final build was attempted,
and the profile pairs that were read. -/

/-- External outcomes consumed by the PGO path of `main`. -/
structure PgoEnv where
  instrBuildRc : Int
  instrRunRc : Int
  profileText : Str
  finalBuildRc : Int

/-- Observable outcome of the driver run. -/
structure DriveResult where
  exitCode : Int
  runWarned : Bool
  finalAttempted : Bool
  counts : List (Str × Nat)
deriving DecidableEq

/-- The driver: with profiling on, a failed instrumented build returns 3
before any final build; a non-zero instrumented run only warns; the final
build failing returns 4; otherwise 0. -/
def drive_pgo (profile : Bool) (env : PgoEnv) : DriveResult :=
  if profile then
    if env.instrBuildRc ≠ 0 then ⟨3, false, false, []⟩
    else
      let counts := read_profile_counts env.profileText
      let w := env.instrRunRc != 0
      if env.finalBuildRc ≠ 0 then ⟨4, w, true, counts⟩
      else ⟨0, w, true, counts⟩
  else
    if env.finalBuildRc ≠ 0 then ⟨4, false, true, []⟩
    else ⟨0, false, true, []⟩

/-! ### Adaptive learner

Embedding of the `cs_vral` learning pack (`cscriptc.cpp` lines 5473-5704).
`LearnStat` doubles are embedded as exact rationals; the UCB score, which
uses `sqrt` and `log`, lives in `ℝ`. -/

/-- `struct LearnStat { uint64_t n; double sum, ema, last; }`. -/
structure LearnStat where
  n : Nat
  sum : ℚ
  ema : ℚ
  last : ℚ
deriving DecidableEq

/-- The pure per-arm part of `learn_update` (lines 5516-5527): increment
the trial count, accumulate the reward, record it as last, and update the
EMA with fixed `α = 0.2` (the reward itself on the arm's first trial). -/
def learn_update (s : LearnStat) (reward : ℚ) : LearnStat :=
  let n' := s.n + 1
  { n := n'
    sum := s.sum + reward
    ema := if n' = 1 then reward else 0.8 * s.ema + 0.2 * reward
    last := reward }

/-- `get_stat` (lines 5529-5534): the stored statistic, or a zero-initial
one for an unknown key. -/
def get_stat (db : List (String × LearnStat)) (key : String) : LearnStat :=
  (List.lookup key db).getD ⟨0, 0, 0, 0⟩

/-- `score_ucb` (lines 5579-5584) at its fixed exploration constant
`c = 1.2` (the default argument, never overridden by the caller): a tried
arm scores `prior + ema + 1.2·sqrt(log(max(1,totalN)) / n)`; an untried
arm scores `prior + 0 + 1.0`. -/
noncomputable def score_ucb (s : LearnStat) (prior : ℝ) (totalN : Nat) : ℝ :=
  let avg : ℝ := if s.n = 0 then 0 else ((s.ema : ℚ) : ℝ)
  let bonus : ℝ :=
    if s.n = 0 then 1
    else 1.2 * Real.sqrt (Real.log ((max 1 totalN : Nat) : ℝ) / (s.n : ℝ))
  prior + avg + bonus

/-- `struct Arm { Choice c; double prior; }`, keyed by the choice's
`make_key` encoding. -/
structure ArmSpec where
  key : String
  prior : ℝ

/-- The score the greedy branch of `build_cmd_adaptive` computes for one
candidate arm. -/
noncomputable def scoreOf (db : List (String × LearnStat)) (totalN : Nat)
    (a : ArmSpec) : ℝ :=
  score_ucb (get_stat db a.key) a.prior totalN

/-- The `for` loop of the greedy branch (lines 5690-5695): running best
score (initially `-1e100`) and best arm (initially none, C++ `bi = -1`),
updated exactly when the current score is strictly greater. -/
noncomputable def pickGreedyAux (f : ArmSpec → ℝ) :
    List ArmSpec → ℝ → Option ArmSpec → Option ArmSpec
  | [], _, acc => acc
  | a :: rest, best, acc =>
    if f a > best then pickGreedyAux f rest (f a) (some a)
    else pickGreedyAux f rest best acc

/-- The greedy (non-exploration) arm choice of `build_cmd_adaptive`
(lines 5685-5696): the first arm attaining the strictly-greatest score, or
`arms[0]` when no score exceeded `-1e100` (`bi = -1`). -/
noncomputable def pick_greedy_arm (db : List (String × LearnStat))
    (arms : List ArmSpec) (totalN : Nat) : Option ArmSpec :=
  match pickGreedyAux (scoreOf db totalN) arms (-1e100) none with
  | some a => some a
  | none => arms.head?

/-! ### Rendering of well-formed profile lines (used to state the corrected
profile-parsing claim) -/

/-- A counts file consisting of `<symbol> <digits>` lines: each entry is
rendered as the symbol, a space, the digit string and a newline. -/
def renderEntries : List (Str × Str) → Str
  | [] => []
  | (nm, ds) :: es => nm ++ ' ' :: (ds ++ '\n' :: renderEntries es)

/-- The first `f >> name >> cnt` extraction on `t` fails: either only
whitespace remains (clean end of file), or after the next name token the
numeric extraction fails — no digits follow the optional sign, or the
digit run's value exceeds `ULLONG_MAX` (a malformed entry). -/
@[reducible] def BadTail (t : Str) : Prop :=
  (t.dropWhile csIsSpace).takeWhile (fun c => !(csIsSpace c)) = [] ∨
    ((readSign ((((t.dropWhile csIsSpace).dropWhile (fun c => !(csIsSpace c))).dropWhile
        csIsSpace))).2.takeWhile Char.isDigit) = [] ∨
    2 ^ 64 - 1 <
      natOfDigits ((readSign ((((t.dropWhile csIsSpace).dropWhile
        (fun c => !(csIsSpace c))).dropWhile csIsSpace))).2.takeWhile Char.isDigit)

/-! ## Helper lemmas -/

theorem takeWhile_append_eq (p : Char → Bool) (l t : Str) (x : Char)
    (h : ∀ c ∈ l, p c = true) (hx : p x = false) :
    (l ++ x :: t).takeWhile p = l := by
  induction l with
  | nil => simp [List.takeWhile_cons, hx]
  | cons c cs ih =>
    have hc : p c = true := h c (by simp)
    simp only [List.cons_append, List.takeWhile_cons, hc, if_true]
    rw [ih (fun d hd => h d (by simp [hd]))]

theorem dropWhile_append_eq (p : Char → Bool) (l t : Str) (x : Char)
    (h : ∀ c ∈ l, p c = true) (hx : p x = false) :
    (l ++ x :: t).dropWhile p = x :: t := by
  induction l with
  | nil => simp [List.dropWhile_cons, hx]
  | cons c cs ih =>
    have hc : p c = true := h c (by simp)
    simp only [List.cons_append, List.dropWhile_cons, hc, if_true]
    exact ih (fun d hd => h d (by simp [hd]))

theorem length_dropWhile_le (p : Char → Bool) (l : Str) :
    (l.dropWhile p).length ≤ l.length := by
  induction l with
  | nil => simp
  | cons c cs ih =>
    by_cases hc : p c
    · simp only [List.dropWhile_cons, hc, if_true]
      exact le_trans ih (by simp)
    · simp [List.dropWhile_cons, hc]

theorem space_not_digit {c : Char} (h : csIsSpace c = true) : c.isDigit = false := by
  simp only [csIsSpace, Bool.or_eq_true, beq_iff_eq] at h
  rcases h with ((((h | h) | h) | h) | h) | h <;> subst h <;> decide

theorem digit_not_space {c : Char} (h : c.isDigit = true) : csIsSpace c = false := by
  cases hs : csIsSpace c
  · rfl
  · rw [space_not_digit hs] at h; exact absurd h (by simp)

theorem readSign_not_sign (c : Char) (rest : Str) (h1 : ¬ c = '-') (h2 : ¬ c = '+') :
    readSign (c :: rest) = (false, c :: rest) := by
  unfold readSign
  split
  · rename_i heq
    injection heq with heqc _
    exact absurd heqc h1
  · rename_i heq
    injection heq with heqc _
    exact absurd heqc h2
  · rfl

/-! ## Claim theorems -/

/-- Claim C6: the arm-statistic update is a deterministic recurrence: every
update increments `trials` by exactly one; `ema` equals the reward on the
arm's first trial and `0.8·ema_prev + 0.2·reward` on every later trial; from
the empty statistic the rewards `[1, -1, 1]` produce `trials = 3` and the
ema sequence `1, 0.6, 0.68`.  (C++ `double` arithmetic is embedded as exact
rational arithmetic.) -/
theorem learn_update_recurrence :
    (∀ (s : LearnStat) (r : ℚ), (learn_update s r).n = s.n + 1) ∧
    (∀ (s : LearnStat) (r : ℚ),
      (learn_update s r).ema = if s.n = 0 then r else 0.8 * s.ema + 0.2 * r) ∧
    ((learn_update ⟨0, 0, 0, 0⟩ 1).ema = 1 ∧
      (learn_update (learn_update ⟨0, 0, 0, 0⟩ 1) (-1)).ema = 0.6 ∧
      (learn_update (learn_update (learn_update ⟨0, 0, 0, 0⟩ 1) (-1)) 1).ema = 0.68 ∧
      (learn_update (learn_update (learn_update ⟨0, 0, 0, 0⟩ 1) (-1)) 1).n = 3) := by
  refine ⟨fun s r => rfl, fun s r => ?_, by norm_num [learn_update], by norm_num [learn_update],
    by norm_num [learn_update], by decide⟩
  simp only [learn_update]
  by_cases h0 : s.n = 0
  · simp [h0]
  · have h1 : ¬(s.n + 1 = 1) := by omega
    simp [h0, h1]

/-- Claim C8: PGO failure semantics of `main`: a failed instrumented build
aborts with exit code 3 before any final build is attempted; a non-zero
instrumented run only produces a warning and compilation proceeds, so an
empty (missing) counts file yields no profile pairs — hence an empty hot
set — and a succeeding final pass exits 0; a failed final build exits 4. -/
theorem pgo_failure_semantics (env : PgoEnv) :
    (env.instrBuildRc ≠ 0 →
      (drive_pgo true env).exitCode = 3 ∧ (drive_pgo true env).finalAttempted = false) ∧
    (env.instrBuildRc = 0 → env.instrRunRc ≠ 0 →
      (drive_pgo true env).runWarned = true ∧ (drive_pgo true env).finalAttempted = true) ∧
    (env.instrBuildRc = 0 → env.profileText = [] → env.finalBuildRc = 0 →
      (drive_pgo true env).counts = [] ∧ select_hot_functions [] 16 = [] ∧
      (drive_pgo true env).exitCode = 0) ∧
    (env.instrBuildRc = 0 → env.finalBuildRc ≠ 0 → (drive_pgo true env).exitCode = 4) := by
  refine ⟨fun h1 => ?_, fun h1 h2 => ?_, fun h1 h2 h3 => ?_, fun h1 h2 => ?_⟩
  · simp [drive_pgo, h1]
  · by_cases h3 : env.finalBuildRc ≠ 0 <;> simp [drive_pgo, h1, h2, h3]
  · have hcounts : read_profile_counts ([] : Str) = [] := rfl
    simp [drive_pgo, h1, h2, h3, hcounts, select_hot_functions]
  · simp [drive_pgo, h1, h2]

/-- Claim C8 witness: the four failure-semantics facts evaluated at
concrete toolchain outcomes. -/
theorem pgo_failure_semantics_witness :
    ((drive_pgo true ⟨1, 0, [], 0⟩).exitCode = 3 ∧
      (drive_pgo true ⟨1, 0, [], 0⟩).finalAttempted = false) ∧
    ((drive_pgo true ⟨0, 2, [], 0⟩).runWarned = true ∧
      (drive_pgo true ⟨0, 2, [], 0⟩).finalAttempted = true) ∧
    ((drive_pgo true ⟨0, 2, [], 0⟩).counts = [] ∧ select_hot_functions [] 16 = [] ∧
      (drive_pgo true ⟨0, 2, [], 0⟩).exitCode = 0) ∧
    (drive_pgo true ⟨0, 0, [], 1⟩).exitCode = 4 :=
  ⟨(pgo_failure_semantics ⟨1, 0, [], 0⟩).1 (by decide),
   (pgo_failure_semantics ⟨0, 2, [], 0⟩).2.1 rfl (by decide),
   (pgo_failure_semantics ⟨0, 2, [], 0⟩).2.2.1 rfl rfl rfl,
   (pgo_failure_semantics ⟨0, 0, [], 1⟩).2.2.2 rfl (by decide)⟩

/-- Claim C3 (code defect): the lowering pipeline is not idempotent.  On
the source `"@unsafe { @unsafe { x } }"` (which triggers none of the other
passes) the `@unsafe` pass copies the nested `@unsafe` block verbatim, so
its own output still matches its pattern and a second run rewrites it
again. -/
theorem lower_unsafe_not_idempotent :
    lower_unsafe_blocks
        (lower_unsafe_blocks (("@unsafe \x7b @unsafe \x7b x \x7d \x7d").data)) ≠
      lower_unsafe_blocks (("@unsafe \x7b @unsafe \x7b x \x7d \x7d").data) := by
  decide

/-- Claim C5 counterexample: on the counts file
`"foo 10\ngarbage\nbar 5\n"` — one malformed line between two valid
lines — parsing stops at the malformed line instead of skipping it: the
resulting map is `{foo ↦ 10}` and the valid line `bar 5` after the
malformed one is lost (`bar`'s aggregate count is 0, not 5). -/
theorem profile_parse_malformed_cex :
    read_profile_counts (("foo 10\ngarbage\nbar 5\n").data) = [((("foo").data), 10)] ∧
    countOf (read_profile_counts (("foo 10\ngarbage\nbar 5\n").data)) (("bar").data) = 0 ∧
    countOf (read_profile_counts (("foo 10\ngarbage\nbar 5\n").data)) (("foo").data) = 10 := by
  decide

/-- Claim C4 counterexample: for the count map `{a ↦ 1, b ↦ 1}` (stored by
`std::map` in the ascending-key order `[(a,1),(b,1)]`) and `N = 1`, both
`[(b,1),(a,1)]` and `[(a,1),(b,1)]` are permutations of the map that
satisfy the descending-count postcondition of `std::sort` (whose order on
equal counts is unspecified), yet they select different hot sets — so the
code does not guarantee the ascending-name tie-break: the permitted
outcome `{b}` differs from the claimed `{a}`. -/
theorem hot_set_tie_cex :
    List.Perm [((("b").data), 1), ((("a").data), 1)] [((("a").data), 1), ((("b").data), 1)] ∧
    SortedByCountDesc [((("b").data), 1), ((("a").data), 1)] ∧
    SortedByCountDesc [((("a").data), 1), ((("b").data), 1)] ∧
    select_hot_functions [((("b").data), 1), ((("a").data), 1)] 1 = [("b").data] ∧
    select_hot_functions [((("a").data), 1), ((("b").data), 1)] 1 = [("a").data] ∧
    ([("b").data] : List Str) ≠ [("a").data] := by
  refine ⟨List.Perm.swap _ _ _, by simp [SortedByCountDesc, List.chain'_cons],
    by simp [SortedByCountDesc, List.chain'_cons], by decide, by decide, by decide⟩

/-- Claim C7 counterexample: with `totalN = 3`, an untried arm's score
(fixed bonus `1.0`, code line 5582's else-branch) is strictly below the
score of a tried arm with the same prior and zero EMA (bonus
`1.2·sqrt(ln 3 / 1) > 1`), so untried arms do not receive a maximal
exploration bonus. -/
theorem ucb_untried_bonus_cex :
    score_ucb ⟨0, 0, 0, 0⟩ 0 3 < score_ucb ⟨1, 0, 0, 0⟩ 0 3 := by
  have h1 : score_ucb ⟨0, 0, 0, 0⟩ 0 3 = 1 := by
    simp [score_ucb]
  have h2 : score_ucb ⟨1, 0, 0, 0⟩ 0 3 = 1.2 * Real.sqrt (Real.log 3) := by
    simp [score_ucb]
  rw [h1, h2]
  have hlog : (1 : ℝ) < Real.log 3 := by
    rw [Real.lt_log_iff_exp_lt (by norm_num)]
    exact lt_trans Real.exp_one_lt_d9 (by norm_num)
  have hsq : (1 : ℝ) < Real.sqrt (Real.log 3) := by
    rw [show (1 : ℝ) = Real.sqrt 1 from (Real.sqrt_one).symm]
    exact Real.sqrt_lt_sqrt (by norm_num) (by simpa using hlog)
  nlinarith [hsq]

theorem pickGreedyAux_spec (f : ArmSpec → ℝ) :
    ∀ (l : List ArmSpec) (best : ℝ) (acc : Option ArmSpec),
      (pickGreedyAux f l best acc = acc ∧ ∀ x ∈ l, f x ≤ best) ∨
      (∃ a, pickGreedyAux f l best acc = some a ∧ a ∈ l ∧ best < f a ∧
        ∀ x ∈ l, f x ≤ f a) := by
  intro l
  induction l with
  | nil => intro best acc; exact Or.inl ⟨rfl, by simp⟩
  | cons a rest ih =>
    intro best acc
    by_cases h : f a > best
    · rcases ih (f a) (some a) with ⟨heq, hb⟩ | ⟨a', heq, hmem, hlt, hb⟩
      · refine Or.inr ⟨a, ?_, by simp, h, ?_⟩
        · simp [pickGreedyAux, h, heq]
        · intro x hx
          rcases List.mem_cons.mp hx with rfl | hx
          · exact le_refl _
          · exact hb x hx
      · refine Or.inr ⟨a', ?_, by simp [hmem], lt_trans h hlt, ?_⟩
        · simp [pickGreedyAux, h, heq]
        · intro x hx
          rcases List.mem_cons.mp hx with rfl | hx
          · exact le_of_lt hlt
          · exact hb x hx
    · rcases ih best acc with ⟨heq, hb⟩ | ⟨a', heq, hmem, hlt, hb⟩
      · refine Or.inl ⟨by simp [pickGreedyAux, h, heq], ?_⟩
        intro x hx
        rcases List.mem_cons.mp hx with rfl | hx
        · exact le_of_not_lt h
        · exact hb x hx
      · refine Or.inr ⟨a', by simp [pickGreedyAux, h, heq], by simp [hmem], hlt, ?_⟩
        intro x hx
        rcases List.mem_cons.mp hx with rfl | hx
        · exact le_trans (le_of_not_lt h) (le_of_lt hlt)
        · exact hb x hx

/-- Claim C7 amended: in the greedy branch, provided some candidate scores
above the `-1e100` sentinel (always the case for the real arm set), the
chosen arm is one maximizing `score_ucb`; but the score of an untried arm
is `prior + 1.0` — a fixed exploration bonus of `1.0` and no EMA term —
while a tried arm scores `prior + ema + 1.2·sqrt(ln(max(1,totalN))/trials)`
(so the untried bonus is not maximal). -/
theorem greedy_arm_maximizes (db : List (String × LearnStat)) (arms : List ArmSpec)
    (totalN : Nat) (h : ∃ b ∈ arms, (-1e100 : ℝ) < scoreOf db totalN b) :
    (∃ a, pick_greedy_arm db arms totalN = some a ∧ a ∈ arms ∧
      ∀ x ∈ arms, scoreOf db totalN x ≤ scoreOf db totalN a) ∧
    (∀ (su e la : ℚ) (prior : ℝ) (tN : Nat),
      score_ucb ⟨0, su, e, la⟩ prior tN = prior + 1) ∧
    (∀ (st : LearnStat) (prior : ℝ) (tN : Nat), st.n ≠ 0 →
      score_ucb st prior tN =
        prior + ((st.ema : ℚ) : ℝ) +
          1.2 * Real.sqrt (Real.log ((max 1 tN : Nat) : ℝ) / (st.n : ℝ))) := by
  refine ⟨?_, ?_, ?_⟩
  · rcases pickGreedyAux_spec (scoreOf db totalN) arms (-1e100) none with ⟨heq, hb⟩ | ⟨a, heq, hmem, _, hb⟩
    · obtain ⟨b, hbmem, hbs⟩ := h
      exact absurd (hb b hbmem) (not_le.mpr hbs)
    · exact ⟨a, by simp [pick_greedy_arm, heq], hmem, hb⟩
  · intro su e la prior tN
    simp [score_ucb]
  · intro st prior tN hn
    simp [score_ucb, hn]

/-- Claim C7 witness: the amended selection theorem applied to a concrete
one-arm candidate list over the empty store. -/
theorem greedy_arm_witness :
    pick_greedy_arm [] [⟨"k", 0⟩] 1 = some ⟨"k", 0⟩ := by
  have hs : scoreOf [] 1 ⟨"k", 0⟩ = 1 := by
    simp [scoreOf, get_stat, score_ucb]
  obtain ⟨a, hp, hmem, _⟩ :=
    (greedy_arm_maximizes [] [⟨"k", 0⟩] 1 ⟨⟨"k", 0⟩, by simp, by rw [hs]; norm_num⟩).1
  have ha : a = ⟨"k", 0⟩ := by simpa using hmem
  rw [ha] at hp
  exact hp

/-- Claim C1: at any switch site the scanner delimits (open marker found at
`a`, non-empty type name, type-keyed close marker found at `b`) whose type
is registered as a `Standard` enum (`is_flags = false`): if the `missing`
list — members minus the case identifiers collected between the markers —
is non-empty, the check raises the fatal non-exhaustiveness error carrying
exactly the missing members (characterized by set difference) and the
site's `line_col_at` position; if `missing` is empty, no error is raised
for this site and the scan continues after the close marker. -/
theorem standard_site_exhaustiveness (s : Str) (enums : List (Str × EnumInfo))
    (fuel i a b : Nat) (info : EnumInfo)
    (hsite : sitePos s i = some a)
    (hTne : typeAt s a ≠ [])
    (hend : endPos s (typeAt s a) (typeStart s a + (typeAt s a).length) = some b)
    (hreg : List.lookup (typeAt s a) enums = some info)
    (hstd : info.is_flags = false) :
    (missingOf info (casesIn ((s.drop a).take (b - a))) ≠ [] →
      checkLoop s enums (fuel + 1) i =
        some (.nonExhaustive (typeAt s a)
          (missingOf info (casesIn ((s.drop a).take (b - a))))
          (lineColAt s a).1 (lineColAt s a).2) ∧
      ∀ m, m ∈ missingOf info (casesIn ((s.drop a).take (b - a))) ↔
        (m ∈ info.members ∧ ¬ m ∈ casesIn ((s.drop a).take (b - a)))) ∧
    (missingOf info (casesIn ((s.drop a).take (b - a))) = [] →
      checkLoop s enums (fuel + 1) i = checkLoop s enums fuel (b + 1)) := by
  have hTe : (typeAt s a).isEmpty = false := by
    cases h : (typeAt s a).isEmpty
    · rfl
    · exact absurd (List.isEmpty_iff.mp h) hTne
  have hmem : ∀ m, m ∈ missingOf info (casesIn ((s.drop a).take (b - a))) ↔
      (m ∈ info.members ∧ ¬ m ∈ casesIn ((s.drop a).take (b - a))) := by
    intro m
    simp [missingOf, List.mem_filter]
  constructor
  · intro hne
    have hps : processSite enums (typeAt s a) (casesIn ((s.drop a).take (b - a)))
        (lineColAt s a) =
        some (.nonExhaustive (typeAt s a)
          (missingOf info (casesIn ((s.drop a).take (b - a))))
          (lineColAt s a).1 (lineColAt s a).2) := by
      simp only [processSite, hreg, hstd]
      have hie : (missingOf info (casesIn ((s.drop a).take (b - a)))).isEmpty = false := by
        cases h : (missingOf info (casesIn ((s.drop a).take (b - a)))).isEmpty
        · rfl
        · exact absurd (List.isEmpty_iff.mp h) hne
      simp [hie]
    refine ⟨?_, hmem⟩
    simp only [checkLoop, hsite, hTe, Bool.false_eq_true, if_false, hend, hps]
  · intro he
    have hps : processSite enums (typeAt s a) (casesIn ((s.drop a).take (b - a)))
        (lineColAt s a) = none := by
      simp only [processSite, hreg, hstd]
      have hie : (missingOf info (casesIn ((s.drop a).take (b - a)))).isEmpty = true := by
        rw [List.isEmpty_iff]; exact he
      simp [hie]
    simp only [checkLoop, hsite, hTe, Bool.false_eq_true, if_false, hend, hps]

/-- Claim C1 witness: on the source
`CS_SWITCH_EXHAUSTIVE(Color, v) CS_CASE(Red) CS_SWITCH_END(Color, v)` with
`Color` registered as a Standard enum `{Blue, Green, Red}`, the check
raises the non-exhaustiveness error listing `Blue` and `Green` at 1:1. -/
theorem standard_site_exhaustiveness_witness :
    check_exhaustiveness_or_die
        (("CS_SWITCH_EXHAUSTIVE(Color, v) CS_CASE(Red) CS_SWITCH_END(Color, v)").data)
        [(("Color").data, ⟨[("Blue").data, ("Green").data, ("Red").data], false⟩)] =
      some (.nonExhaustive (("Color").data) [("Blue").data, ("Green").data] 1 1) := by
  have h := (standard_site_exhaustiveness
    (("CS_SWITCH_EXHAUSTIVE(Color, v) CS_CASE(Red) CS_SWITCH_END(Color, v)").data)
    [(("Color").data, ⟨[("Blue").data, ("Green").data, ("Red").data], false⟩)]
    (("CS_SWITCH_EXHAUSTIVE(Color, v) CS_CASE(Red) CS_SWITCH_END(Color, v)").data).length
    0 0 44 ⟨[("Blue").data, ("Green").data, ("Red").data], false⟩
    (by decide) (by decide) (by decide) (by decide) rfl).1 (by decide)
  exact h.1.trans (by decide)

theorem checkLoop_nonExhaustive_registered (s : Str) (enums : List (Str × EnumInfo)) :
    ∀ fuel i T miss l c,
      checkLoop s enums fuel i = some (.nonExhaustive T miss l c) →
      ∃ info, List.lookup T enums = some info ∧ info.is_flags = false := by
  intro fuel
  induction fuel with
  | zero =>
    intro i T miss l c h
    simp [checkLoop] at h
  | succ fuel ih =>
    intro i T miss l c h
    simp only [checkLoop] at h
    split at h
    · exact absurd h (by simp)
    · split at h
      · exact ih _ _ _ _ _ h
      · split at h
        · rw [Option.some_inj] at h
          cases h
        · rename_i a hTe b hb
          split at h
          · rename_i e hps
            rw [Option.some_inj] at h
            subst h
            simp only [processSite] at hps
            split at hps
            · cases hps
            · rename_i info hlook
              split at hps
              · cases hps
              · split at hps
                · cases hps
                · rw [Option.some_inj] at hps
                  cases hps
                  rename_i hfl _
                  exact ⟨info, hlook, by simpa using hfl⟩
          · exact ih _ _ _ _ _ h

/-- Claim C2: a switch site over a type registered as a `Flags` enum never
raises the non-exhaustiveness error, whatever cases it covers: the checker
can only return a non-exhaustiveness error for a type whose registry entry
has `is_flags = false`. -/
theorem flags_enum_never_nonexhaustive (s : Str) (enums : List (Str × EnumInfo))
    (T : Str) (info : EnumInfo) (miss : List Str) (l c : Nat)
    (hreg : List.lookup T enums = some info) (hfl : info.is_flags = true) :
    check_exhaustiveness_or_die s enums ≠ some (.nonExhaustive T miss l c) := by
  intro h
  obtain ⟨info', hreg', hfl'⟩ := checkLoop_nonExhaustive_registered s enums _ _ T miss l c h
  rw [hreg] at hreg'
  rw [Option.some_inj] at hreg'
  subst hreg'
  rw [hfl] at hfl'
  cases hfl'

/-- Claim C2 witness: with `Mode` registered as a Flags enum `{Read, Write}`,
a site covering no case raises no non-exhaustiveness error. -/
theorem flags_enum_never_nonexhaustive_witness :
    check_exhaustiveness_or_die
        (("CS_SWITCH_EXHAUSTIVE(Mode, v) CS_SWITCH_END(Mode, v)").data)
        [(("Mode").data, ⟨[("Read").data, ("Write").data], true⟩)] ≠
      some (.nonExhaustive (("Mode").data) [("Read").data, ("Write").data] 1 1) :=
  flags_enum_never_nonexhaustive
    (("CS_SWITCH_EXHAUSTIVE(Mode, v) CS_SWITCH_END(Mode, v)").data)
    [(("Mode").data, ⟨[("Read").data, ("Write").data], true⟩)]
    (("Mode").data) ⟨[("Read").data, ("Write").data], true⟩
    [("Read").data, ("Write").data] 1 1 (by decide) rfl

/-- Claim C10: a switch site whose type name is not in the registry is
silently accepted: when the scanner finds the site's open marker, reads a
non-empty type name, and finds the type-keyed close marker at `b`, but the
lookup fails, the check raises no diagnostic for the site and the scan
simply continues after the close marker. -/
theorem unregistered_site_skipped (s : Str) (enums : List (Str × EnumInfo))
    (fuel i a b : Nat)
    (hsite : sitePos s i = some a)
    (hTne : typeAt s a ≠ [])
    (hend : endPos s (typeAt s a) (typeStart s a + (typeAt s a).length) = some b)
    (hreg : List.lookup (typeAt s a) enums = none) :
    checkLoop s enums (fuel + 1) i = checkLoop s enums fuel (b + 1) := by
  have hTe : (typeAt s a).isEmpty = false := by
    cases h : (typeAt s a).isEmpty
    · rfl
    · exact absurd (List.isEmpty_iff.mp h) hTne
  have hps : processSite enums (typeAt s a) (casesIn ((s.drop a).take (b - a)))
      (lineColAt s a) = none := by
    simp only [processSite, hreg]
  simp only [checkLoop, hsite, hTe, Bool.false_eq_true, if_false, hend, hps]

/-- Claim C10 witness: a site over the unregistered type `Foo` (empty
registry) with its close marker at position 29 is skipped: one scanner step
continues at position 30 with no diagnostic. -/
theorem unregistered_site_skipped_witness :
    checkLoop (("CS_SWITCH_EXHAUSTIVE(Foo, v) CS_SWITCH_END(Foo, v)").data) [] 4 0 =
      checkLoop (("CS_SWITCH_EXHAUSTIVE(Foo, v) CS_SWITCH_END(Foo, v)").data) [] 3 30 :=
  unregistered_site_skipped
    (("CS_SWITCH_EXHAUSTIVE(Foo, v) CS_SWITCH_END(Foo, v)").data) [] 3 0 0 29
    (by decide) (by decide) (by decide) rfl

theorem scanBlock_snd_length (l : Str) : ∀ d, ((scanBlock d l).2).length ≤ l.length := by
  induction l with
  | nil => intro d; simp [scanBlock]
  | cons c rest ih =>
    intro d
    simp only [scanBlock]
    by_cases h1 : c = '{'
    · simp only [h1, if_true]
      exact le_trans (ih (d + 1)) (by simp)
    · simp only [h1, if_false]
      by_cases h2 : c = '}'
      · simp only [h2, if_true]
        by_cases h3 : d = 1
        · simp only [h3, if_true]
          simp
        · simp only [h3, if_false]
          exact le_trans (ih (d - 1)) (by simp)
      · simp only [h2, if_false]
        exact le_trans (ih d) (by simp)

theorem lowerUnsafeLoop_fuel :
    ∀ (f1 : Nat) (s : Str) (f2 : Nat), s.length < f1 → s.length < f2 →
      lowerUnsafeLoop f1 s = lowerUnsafeLoop f2 s := by
  intro f1
  induction f1 with
  | zero => intro s f2 h1 _; omega
  | succ f1 ih =>
    intro s f2 h1 h2
    obtain ⟨g2, rfl⟩ : ∃ g2, f2 = g2 + 1 := ⟨f2 - 1, by omega⟩
    cases s with
    | nil => simp [lowerUnsafeLoop]
    | cons c rest =>
      have hrest : rest.length < f1 ∧ rest.length < g2 := by
        simp only [List.length_cons] at h1 h2
        omega
      simp only [lowerUnsafeLoop]
      by_cases ht : (c :: rest).take 7 = atUnsafePat
      · rw [if_pos ht, if_pos ht]
        split
        · rename_i body heq
          have hb1 : body.length + 1 ≤ ((c :: rest).drop 7).length := by
            have hle := length_dropWhile_le csIsSpace ((c :: rest).drop 7)
            rw [heq] at hle
            simpa using hle
          have hb2 : ((c :: rest).drop 7).length = (c :: rest).length - 7 := by simp
          have hsb := scanBlock_snd_length body 1
          have hcs : (c :: rest).length = rest.length + 1 := by simp
          congr 1
          exact ih _ _ (by omega) (by omega)
        · congr 1
          exact ih _ _ hrest.1 hrest.2
      · rw [if_neg ht, if_neg ht]
        congr 1
        exact ih _ _ hrest.1 hrest.2

theorem scanBlock_through (b : Str) :
    ∀ (d : Nat) (t : Str),
      (∀ n ≤ b.length, ((b.take n).count '}') + 1 ≤ d + ((b.take n).count '{')) →
      scanBlock d (b ++ t) =
        (b ++ (scanBlock (d + b.count '{' - b.count '}') t).1,
          (scanBlock (d + b.count '{' - b.count '}') t).2) := by
  induction b with
  | nil => intro d t h; simp
  | cons c b ih =>
    intro d t h
    have hd1 : 1 ≤ d := by simpa using h 0 (by simp)
    by_cases hc1 : c = '{'
    · subst hc1
      have hcount : ∀ m : Str, ('{' :: m).count '{' = m.count '{' + 1 ∧
          ('{' :: m).count '}' = m.count '}' := by
        intro m; constructor <;> simp [List.count_cons]
      have hcond : ∀ n ≤ b.length, ((b.take n).count '}') + 1 ≤ (d + 1) + ((b.take n).count '{') := by
        intro n hn
        have := h (n + 1) (by simpa using hn)
        rw [List.take_succ_cons] at this
        rcases hcount (b.take n) with ⟨e1, e2⟩
        omega
      have hrec := ih (d + 1) t hcond
      have hfull := h (b.length + 1) (by simp)
      have hfullb : ((('{' :: b).take (b.length + 1)).count '}') + 1 ≤
          d + ((('{' :: b).take (b.length + 1)).count '{') := hfull
      rcases hcount b with ⟨e1, e2⟩
      have hD : d + ('{' :: b).count '{' - ('{' :: b).count '}' =
          (d + 1) + b.count '{' - b.count '}' := by omega
      rw [List.cons_append]
      simp only [scanBlock, if_true]
      rw [hrec, hD]
      simp
    · by_cases hc2 : c = '}'
      · subst hc2
        have hcount : ∀ m : Str, ('}' :: m).count '}' = m.count '}' + 1 ∧
            ('}' :: m).count '{' = m.count '{' := by
          intro m; constructor <;> simp [List.count_cons]
        have hd2 : 2 ≤ d := by
          have := h 1 (by simp)
          simpa [List.count_cons] using this
        have hcond : ∀ n ≤ b.length, ((b.take n).count '}') + 1 ≤ (d - 1) + ((b.take n).count '{') := by
          intro n hn
          have := h (n + 1) (by simpa using hn)
          rw [List.take_succ_cons] at this
          rcases hcount (b.take n) with ⟨e1, e2⟩
          omega
        have hrec := ih (d - 1) t hcond
        rcases hcount b with ⟨e1, e2⟩
        have hD : d + ('}' :: b).count '{' - ('}' :: b).count '}' =
            (d - 1) + b.count '{' - b.count '}' := by omega
        rw [List.cons_append]
        simp only [scanBlock, if_false, reduceCtorEq]
        have hne : ('}' : Char) = '{' ↔ False := by simp
        have hd1' : ¬ (d = 1) := by omega
        simp only [show (('}' : Char) = '{') = False from by simp, if_false, hd1']
        rw [hrec, hD]
        simp
      · have hcount : ∀ m : Str, (c :: m).count '}' = m.count '}' ∧
            (c :: m).count '{' = m.count '{' := by
          intro m
          constructor <;> simp [List.count_cons, hc1, hc2]
        have hcond : ∀ n ≤ b.length, ((b.take n).count '}') + 1 ≤ d + ((b.take n).count '{') := by
          intro n hn
          have := h (n + 1) (by simpa using hn)
          rw [List.take_succ_cons] at this
          rcases hcount (b.take n) with ⟨e1, e2⟩
          omega
        have hrec := ih d t hcond
        rcases hcount b with ⟨e1, e2⟩
        have hD : d + (c :: b).count '{' - (c :: b).count '}' =
            d + b.count '{' - b.count '}' := by omega
        rw [List.cons_append]
        simp only [scanBlock, hc1, hc2, if_false]
        rw [hrec, hD]
        simp

theorem lowerUnsafeLoop_at_trigger (fuel : Nat) (ws body : Str)
    (hws : ∀ c ∈ ws, csIsSpace c = true) :
    lowerUnsafeLoop (fuel + 1) (atUnsafePat ++ (ws ++ '{' :: body)) =
      beginMarker ++ (scanBlock 1 body).1 ++ lowerUnsafeLoop fuel (scanBlock 1 body).2 := by
  have heq : atUnsafePat ++ (ws ++ '{' :: body) =
      '@' :: (("unsafe").data ++ (ws ++ '{' :: body)) := rfl
  rw [heq]
  have htake : ('@' :: (("unsafe").data ++ (ws ++ '{' :: body))).take 7 = atUnsafePat := by
    rw [← heq]
    exact List.take_left' rfl
  have hdrop : ('@' :: (("unsafe").data ++ (ws ++ '{' :: body))).drop 7 = ws ++ '{' :: body := by
    rw [← heq]
    exact List.drop_left' rfl
  have hdw : (ws ++ '{' :: body).dropWhile csIsSpace = '{' :: body :=
    dropWhile_append_eq csIsSpace ws body '{' hws (by decide)
  simp only [lowerUnsafeLoop, htake, if_true, hdrop, hdw]

/-- Claim C9: the `@unsafe` block lowering is nesting-aware.  For any
whitespace run `ws` and any brace-balanced block body `b`, lowering
`@unsafe ws { b } rest` emits `{ CS_UNSAFE_BEGIN; `, copies `b` verbatim
(nested braces and all), emits ` CS_UNSAFE_END; ` exactly at the closing
brace that returns the nesting depth to zero — never at an earlier closing
brace — and then continues lowering `rest`. -/
theorem unsafe_block_nesting_aware (ws b rest : Str)
    (hws : ∀ c ∈ ws, csIsSpace c = true) (hb : BalancedBraces b) :
    lower_unsafe_blocks (atUnsafePat ++ (ws ++ '{' :: (b ++ '}' :: rest))) =
      beginMarker ++ b ++ endMarker ++ '}' :: lower_unsafe_blocks rest := by
  obtain ⟨hdepth, hbal⟩ := hb
  have hcond : ∀ n ≤ b.length, ((b.take n).count '}') + 1 ≤ 1 + ((b.take n).count '{') := by
    intro n hn
    have := hdepth n hn
    omega
  have hsb := scanBlock_through b 1 ('}' :: rest) hcond
  have hD : 1 + b.count '{' - b.count '}' = 1 := by omega
  rw [hD] at hsb
  have hclose : scanBlock 1 ('}' :: rest) = (endMarker ++ ['}'], rest) := by
    simp [scanBlock]
  rw [hclose] at hsb
  have hlen : rest.length <
      (atUnsafePat ++ (ws ++ '{' :: (b ++ '}' :: rest))).length := by
    simp [atUnsafePat]
    omega
  unfold lower_unsafe_blocks
  rw [lowerUnsafeLoop_at_trigger (atUnsafePat ++ (ws ++ '{' :: (b ++ '}' :: rest))).length
    ws (b ++ '}' :: rest) hws, hsb]
  have hfuel : lowerUnsafeLoop (atUnsafePat ++ (ws ++ '{' :: (b ++ '}' :: rest))).length rest =
      lowerUnsafeLoop (rest.length + 1) rest :=
    lowerUnsafeLoop_fuel _ rest (rest.length + 1) hlen (by omega)
  rw [hfuel]
  simp

/-- Claim C9 witness: lowering `@unsafe {a{b}c}xy` (a body with one nested
brace pair) places ` CS_UNSAFE_END; ` at the outer closing brace only and
preserves the nested braces verbatim. -/
theorem unsafe_block_nesting_witness :
    lower_unsafe_blocks (atUnsafePat ++ ([' '] ++ '{' :: ((("a\x7bb\x7dc").data) ++ '}' :: (("xy").data)))) =
      beginMarker ++ (("a\x7bb\x7dc").data) ++ endMarker ++ '}' :: lower_unsafe_blocks (("xy").data) :=
  unsafe_block_nesting_aware [' '] (("a\x7bb\x7dc").data) (("xy").data)
    (by decide) (by decide)

theorem readCountsF_step_bad (t : Str) (htail : BadTail t) (fuel : Nat) :
    readCountsF (fuel + 1) t = [] := by
  simp only [readCountsF]
  rcases htail with h | h | h
  · rw [h]
    simp
  · rw [h]
    simp
  · split
    · rfl
    · split
      · rfl
      · rfl

theorem readCountsF_congr_dropWhile (f : Nat) (s1 s2 : Str)
    (h : s1.dropWhile csIsSpace = s2.dropWhile csIsSpace) :
    readCountsF (f + 1) s1 = readCountsF (f + 1) s2 := by
  simp only [readCountsF, h]

theorem readCountsF_render :
    ∀ (entries : List (Str × Str)) (tail : Str),
      (∀ e ∈ entries, e.1 ≠ [] ∧ (∀ ch ∈ e.1, csIsSpace ch = false) ∧
        e.2 ≠ [] ∧ (∀ ch ∈ e.2, ch.isDigit = true) ∧ natOfDigits e.2 ≤ 2 ^ 64 - 1) →
      BadTail tail →
      ∀ fuel, (renderEntries entries ++ tail).length < fuel →
        readCountsF fuel (renderEntries entries ++ tail) =
          entries.map (fun e => (e.1, natOfDigits e.2)) := by
  intro entries
  induction entries with
  | nil =>
    intro tail hgood htail fuel hf
    obtain ⟨f, rfl⟩ : ∃ f, fuel = f + 1 := ⟨fuel - 1, by omega⟩
    simpa [renderEntries] using readCountsF_step_bad tail htail f
  | cons e es ih =>
    intro tail hgood htail fuel hf
    obtain ⟨enm, eds⟩ := e
    obtain ⟨f, rfl⟩ : ∃ f, fuel = f + 1 := ⟨fuel - 1, by omega⟩
    obtain ⟨h1, h2, h3, h4, h5⟩ := hgood (enm, eds) (by simp)
    simp only at h1 h2 h3 h4 h5
    obtain ⟨c0, nm', rfl⟩ : ∃ c0 nm', enm = c0 :: nm' := by
      cases he : enm with
      | nil => exact absurd he h1
      | cons x l => exact ⟨x, l, rfl⟩
    obtain ⟨d0, ds', rfl⟩ : ∃ d0 ds', eds = d0 :: ds' := by
      cases he : eds with
      | nil => exact absurd he h3
      | cons x l => exact ⟨x, l, rfl⟩
    have hXeq : renderEntries ((c0 :: nm', d0 :: ds') :: es) ++ tail =
        (c0 :: nm') ++ ' ' :: ((d0 :: ds') ++ '\n' :: (renderEntries es ++ tail)) := by
      simp [renderEntries]
    rw [hXeq]
    have ha : ((c0 :: nm') ++ ' ' :: ((d0 :: ds') ++ '\n' :: (renderEntries es ++ tail))).dropWhile
        csIsSpace =
        (c0 :: nm') ++ ' ' :: ((d0 :: ds') ++ '\n' :: (renderEntries es ++ tail)) := by
      rw [List.cons_append, List.dropWhile_cons]
      simp [h2 c0 (by simp)]
    have hb : ((c0 :: nm') ++ ' ' :: ((d0 :: ds') ++ '\n' :: (renderEntries es ++ tail))).takeWhile
        (fun c => !(csIsSpace c)) = c0 :: nm' :=
      takeWhile_append_eq _ _ _ ' ' (fun c hc => by simp [h2 c hc]) (by decide)
    have hc : ((c0 :: nm') ++ ' ' :: ((d0 :: ds') ++ '\n' :: (renderEntries es ++ tail))).dropWhile
        (fun c => !(csIsSpace c)) = ' ' :: ((d0 :: ds') ++ '\n' :: (renderEntries es ++ tail)) :=
      dropWhile_append_eq _ _ _ ' ' (fun c hc => by simp [h2 c hc]) (by decide)
    have hu : (' ' :: ((d0 :: ds') ++ '\n' :: (renderEntries es ++ tail))).dropWhile csIsSpace =
        (d0 :: ds') ++ '\n' :: (renderEntries es ++ tail) := by
      rw [List.dropWhile_cons]
      have hsp : csIsSpace ' ' = true := by decide
      rw [if_pos hsp, List.cons_append, List.dropWhile_cons]
      simp [digit_not_space (h4 d0 (by simp))]
    have hds : ((d0 :: ds') ++ '\n' :: (renderEntries es ++ tail)).takeWhile Char.isDigit =
        d0 :: ds' :=
      takeWhile_append_eq _ _ _ '\n' (fun c hc => h4 c hc) (by decide)
    have hd0m : ¬ d0 = '-' := fun he => by
      have hd := h4 d0 (by simp)
      rw [he] at hd
      exact absurd hd (by decide)
    have hd0p : ¬ d0 = '+' := fun he => by
      have hd := h4 d0 (by simp)
      rw [he] at hd
      exact absurd hd (by decide)
    have hsg : readSign ((d0 :: ds') ++ '\n' :: (renderEntries es ++ tail)) =
        (false, (d0 :: ds') ++ '\n' :: (renderEntries es ++ tail)) := by
      rw [List.cons_append]
      exact readSign_not_sign d0 _ hd0m hd0p
    have hno : ¬ (2 ^ 64 - 1 < natOfDigits (d0 :: ds')) := by omega
    have hstep : readCountsF (f + 1)
        ((c0 :: nm') ++ ' ' :: ((d0 :: ds') ++ '\n' :: (renderEntries es ++ tail))) =
        (c0 :: nm', natOfDigits (d0 :: ds')) ::
          readCountsF f ('\n' :: (renderEntries es ++ tail)) := by
      simp only [readCountsF, ha, hb, hc, hu, hsg, hds, List.isEmpty_cons, Bool.false_eq_true,
        if_false, hno]
      rw [show ((d0 :: ds') ++ '\n' :: (renderEntries es ++ tail)).drop (d0 :: ds').length =
        '\n' :: (renderEntries es ++ tail) from List.drop_left _ _]
    rw [hstep]
    have hlenX : ((c0 :: nm') ++ ' ' :: ((d0 :: ds') ++ '\n' :: (renderEntries es ++ tail))).length =
        (c0 :: nm').length + 1 + (d0 :: ds').length + 1 + (renderEntries es ++ tail).length := by
      simp
      omega
    rw [hXeq] at hf
    rw [hlenX] at hf
    obtain ⟨f2, rfl⟩ : ∃ f2, f = f2 + 1 := ⟨f - 1, by omega⟩
    have hcong : readCountsF (f2 + 1) ('\n' :: (renderEntries es ++ tail)) =
        readCountsF (f2 + 1) (renderEntries es ++ tail) := by
      refine readCountsF_congr_dropWhile f2 _ _ ?_
      rw [List.dropWhile_cons]
      rw [if_pos (by decide : csIsSpace '\n' = true)]
    rw [hcong, ih tail (fun x hx => hgood x (by simp [hx])) htail (f2 + 1) (by omega)]
    simp

/-- Claim C5 amended: profile parsing is sequential and stops at the first
malformed entry: for any well-formed `<symbol> <digits>` lines (counts in
the `unsigned long long` range) followed by a remainder whose first
`name >> cnt` extraction fails — nothing but whitespace left, no digits
after the next token's optional sign, or a digit run whose value exceeds
`ULLONG_MAX` — the pairs of the well-formed prefix are all read (duplicate
symbols later summed by the `m[name] += cnt` accumulation) and the
malformed entry and everything after it are dropped. -/
theorem profile_parse_stops_at_malformed (entries : List (Str × Str)) (tail : Str)
    (hgood : ∀ e ∈ entries, e.1 ≠ [] ∧ (∀ ch ∈ e.1, csIsSpace ch = false) ∧
      e.2 ≠ [] ∧ (∀ ch ∈ e.2, ch.isDigit = true) ∧ natOfDigits e.2 ≤ 2 ^ 64 - 1)
    (htail : BadTail tail) :
    read_profile_counts (renderEntries entries ++ tail) =
      entries.map (fun e => (e.1, natOfDigits e.2)) ∧
    ∀ sym, countOf (read_profile_counts (renderEntries entries ++ tail)) sym =
      countOf (entries.map (fun e => (e.1, natOfDigits e.2))) sym := by
  have h := readCountsF_render entries tail hgood htail
    ((renderEntries entries ++ tail).length + 1) (by omega)
  exact ⟨h, fun sym => by rw [read_profile_counts, h]⟩

/-- Claim C5 witness: the valid line `foo 10` followed by the malformed
remainder `garbage\nbar 5` parses to exactly `[(foo, 10)]`. -/
theorem profile_parse_stops_witness :
    read_profile_counts
        (renderEntries [((("foo").data), (("10").data))] ++ (("garbage\nbar 5\n").data)) =
      [((("foo").data), 10)] := by
  have h := (profile_parse_stops_at_malformed [((("foo").data), (("10").data))]
    (("garbage\nbar 5\n").data) (by decide) (by decide)).1
  exact h.trans (by decide)

/-- Consistency of the numeric-extraction model with `operator>>` on
sign-led and out-of-range tokens: a sign-led in-range count parses and the
loop continues (`+7` reads as 7; `-7` wraps to `2^64 - 7`, as `strtoull`
negates modulo `2^64` without failing), while a digit run whose value
exceeds `ULLONG_MAX` puts the stream in the fail state, so the loop stops
and that entry and all later lines are lost. -/
theorem readCounts_extraction_semantics :
    read_profile_counts (("x +7\ny 8\n").data) =
      [((("x").data), 7), ((("y").data), 8)] ∧
    read_profile_counts (("x -7\ny 8\n").data) =
      [((("x").data), 2 ^ 64 - 7), ((("y").data), 8)] ∧
    read_profile_counts (("x 99999999999999999999\ny 8\n").data) = [] := by
  refine ⟨by decide, by decide, by decide⟩

/-- Claim C4 amended: the selection loop takes the first N positive-count
entries of a count-descending reordering of the map; because `std::sort`
leaves the order of equal counts unspecified, the selected set is only
determined when no tie spans the cutoff — in particular, for the counts
`{f ↦ 10, g ↦ 10, h ↦ 1, i ↦ 0}` with `N = 2`, every permitted sort order
yields exactly the hot set `{f, g}`. -/
theorem hot_set_example_deterministic (w : List (Str × Nat))
    (hperm : w.Perm
      [((("f").data), 10), ((("g").data), 10), ((("h").data), 1), ((("i").data), 0)])
    (hsort : SortedByCountDesc w) :
    (select_hot_functions w 2).toFinset = {("f").data, ("g").data} := by
  have hlen : w.length = 4 := by simpa using hperm.length_eq
  rcases w with _ | ⟨a, w⟩
  · simp at hlen
  rcases w with _ | ⟨b, w⟩
  · simp at hlen
  rcases w with _ | ⟨c, w⟩
  · simp at hlen
  rcases w with _ | ⟨d, w⟩
  · simp at hlen
  rcases w with _ | ⟨e, w⟩
  swap
  · simp at hlen
  haveI : IsTrans (Str × Nat) (fun p q => q.2 ≤ p.2) :=
    ⟨fun _ _ _ h1 h2 => le_trans h2 h1⟩
  have hpw : List.Pairwise (fun p q : Str × Nat => q.2 ≤ p.2) [a, b, c, d] :=
    List.chain'_iff_pairwise.mp hsort
  have hsorted : List.Sorted (fun x y : Nat => y ≤ x) ([a, b, c, d].map Prod.snd) :=
    List.pairwise_map.mpr hpw
  haveI : IsAntisymm Nat (fun x y => y ≤ x) := ⟨fun _ _ h1 h2 => le_antisymm h2 h1⟩
  have hmapped : ([a, b, c, d].map Prod.snd) = [10, 10, 1, 0] := by
    refine List.eq_of_perm_of_sorted (hperm.map Prod.snd) hsorted ?_
    simp [List.Sorted, List.pairwise_cons]
  simp only [List.map_cons, List.map_nil, List.cons.injEq, and_true] at hmapped
  obtain ⟨ha2, hb2, hc2, hd2⟩ := hmapped
  have hsub := hperm.subset
  have hamem : a ∈
      [((("f").data), 10), ((("g").data), 10), ((("h").data), 1), ((("i").data), 0)] :=
    hsub (by simp)
  have hbmem : b ∈
      [((("f").data), 10), ((("g").data), 10), ((("h").data), 1), ((("i").data), 0)] :=
    hsub (by simp)
  have hnd : List.Nodup [a, b, c, d] := hperm.symm.nodup (by decide)
  obtain ⟨hanotin, _⟩ := List.nodup_cons.mp hnd
  have hab : a ≠ b := fun he => hanotin (by simp [he])
  have ha : a = ((("f").data), 10) ∨ a = ((("g").data), 10) := by
    simp only [List.mem_cons, List.not_mem_nil, or_false] at hamem
    rcases hamem with h | h | h | h
    · exact Or.inl h
    · exact Or.inr h
    · rw [h] at ha2; exact absurd ha2 (by decide)
    · rw [h] at ha2; exact absurd ha2 (by decide)
  have hbcase : b = ((("f").data), 10) ∨ b = ((("g").data), 10) := by
    simp only [List.mem_cons, List.not_mem_nil, or_false] at hbmem
    rcases hbmem with h | h | h | h
    · exact Or.inl h
    · exact Or.inr h
    · rw [h] at hb2; exact absurd hb2 (by decide)
    · rw [h] at hb2; exact absurd hb2 (by decide)
  rcases ha with rfl | rfl <;> rcases hbcase with rfl | rfl
  · exact absurd rfl hab
  · simp only [select_hot_functions, List.take_succ_cons, List.take_zero]
    decide
  · simp only [select_hot_functions, List.take_succ_cons, List.take_zero]
    decide
  · exact absurd rfl hab

/-- Claim C4 witness: the amended hot-set theorem applied to the identity
ordering of the example map. -/
theorem hot_set_example_witness :
    (select_hot_functions
        [((("f").data), 10), ((("g").data), 10), ((("h").data), 1), ((("i").data), 0)]
        2).toFinset = {("f").data, ("g").data} :=
  hot_set_example_deterministic _ (List.Perm.refl _)
    (by simp [SortedByCountDesc, List.chain'_cons])
